import Mathlib

/-! # PDF Scanner Studio — UI controller (`src/ui/app.js`)

A shallow embedding of the client-side controller: the URL normaliser
`parseUrls`, the status presenter `showStatus`, and the two asynchronous
handlers `startScan` and `stopAndReset`, together with theorems about them.

Conventions of the embedding:

* a JavaScript string is a Lean `String`; all characters that `\s` and
  `trim()` treat as white space lie in the Basic Multilingual Plane, so
  working with code points instead of UTF-16 code units changes nothing;
* the DOM is the record `Controller` (input text, the two `disabled` flags,
  the children of the result area, the `hidden` class of the five status
  boxes);
* everything that leaves the page (alert, fetch, reading a body, the
  download click, `console.error`) is recorded in a list of `Effect`s;
* an `async` function is cut at its `await`: the part before it and the
  part that runs when the awaited request settles are separate functions,
  and the outcome of the request is an argument of the second part.
-/

namespace PdfScanner

/-! ## Input normaliser (`app.js` lines 19-24) -/

/-- The characters matched by the regular-expression class `\s` and removed
by `String.prototype.trim`: ECMAScript WhiteSpace and LineTerminator. -/
def isJsSpace (c : Char) : Bool :=
  c.toNat == 0x09 || c.toNat == 0x0A || c.toNat == 0x0B || c.toNat == 0x0C ||
  c.toNat == 0x0D || c.toNat == 0x20 || c.toNat == 0xA0 || c.toNat == 0x1680 ||
  (0x2000 ≤ c.toNat && c.toNat ≤ 0x200A) || c.toNat == 0x2028 ||
  c.toNat == 0x2029 || c.toNat == 0x202F || c.toNat == 0x205F ||
  c.toNat == 0x3000 || c.toNat == 0xFEFF

/-- The character class `[\s,]` of the separator pattern. -/
def isSep (c : Char) : Bool :=
  isJsSpace c || c == ','

/-- Splitting on the pattern `/[\s,]+/`, on character lists. The flag tells
whether the character just consumed belonged to a separator match: because
`+` is greedy a match extends over the whole run of separator characters,
so a further separator character opens no new piece. The piece after the
last match is always emitted, also when it is empty (`"a,"` gives
`["a", ""]`, `""` gives `[""]`). -/
def splitRuns : Bool → List Char → List (List Char)
  | _, [] => [[]]
  | inSep, c :: cs =>
    if isSep c then
      if inSep then splitRuns true cs else [] :: splitRuns true cs
    else
      match splitRuns false cs with
      | [] => [[c]]
      | p :: ps => (c :: p) :: ps

/-- The call `text.split(/[\s,]+/)`. -/
def jsSplit (text : String) : List String :=
  (splitRuns false text.toList).map String.mk

/-- The method `trim()` on character lists: white space is removed at both
ends. -/
def trimChars (l : List Char) : List Char :=
  (l.dropWhile isJsSpace).rdropWhile isJsSpace

/-- The call `u.trim()`. -/
def jsTrim (u : String) : String :=
  String.mk (trimChars u.toList)

/-- The conversion `Boolean(u)` of a string: the empty string is the only
falsy one. -/
def truthy (u : String) : Bool :=
  !u.toList.isEmpty

/-- The function `parseUrls(text)`: split, trim every piece, keep the truthy
ones. -/
def parseUrls (text : String) : List String :=
  ((jsSplit text).map jsTrim).filter truthy

/-! ### The normaliser as the specification words it -/

/-- Position `i` of `t` holds a character that is neither white space nor a
comma. -/
def tokenCharAt (t : List Char) (i : Nat) : Bool :=
  match t[i]? with
  | some c => !isSep c
  | none => false

/-- Position `i` of `t` holds white space or a comma. -/
def sepAt (t : List Char) (i : Nat) : Bool :=
  match t[i]? with
  | some c => isSep c
  | none => false

/-- A maximal run starts at `i`: a token character that is the first
character of the text or follows a separator character. -/
def startsRun (t : List Char) (i : Nat) : Bool :=
  tokenCharAt t i && (i == 0 || sepAt t (i - 1))

/-- The run starting at `i`, extended to the right as far as it goes. -/
def runAt (t : List Char) (i : Nat) : List Char :=
  (t.drop i).takeWhile (fun c => !isSep c)

/-- The maximal runs of characters that are neither white space nor a
comma, in their order of occurrence in the text. -/
def maximalRuns (text : String) : List String :=
  (((List.range text.toList.length).filter (startsRun text.toList)).map
    (runAt text.toList)).map String.mk

/-! ### Auxiliary characterisation used in the proofs -/

/-- The maximal runs of `t` computed from left to right; the flag tells
whether a run may start at the head of `t` (the text starts here or the
previous character was a separator). -/
def runsFrom : Bool → List Char → List (List Char)
  | _, [] => []
  | p, c :: cs =>
    (if p && !isSep c then [(c :: cs).takeWhile (fun x => !isSep x)] else []) ++
      runsFrom (isSep c) cs

/-- The run-start test of `startsRun` with the answer at position 0 given by
the flag. -/
def startsRunAfter (p : Bool) (t : List Char) (i : Nat) : Bool :=
  tokenCharAt t i && (if i = 0 then p else sepAt t (i - 1))

/-! ## Status presenter (`app.js` lines 9-14 and 26-54) -/

/-- The five lifecycle phases, one status box each. -/
inductive Phase where
  | idle
  | running
  | success
  | warning
  | error
deriving DecidableEq, Repr

/-- The string by which the code names a phase. -/
def Phase.name : Phase → String
  | .idle => "idle"
  | .running => "running"
  | .success => "success"
  | .warning => "warning"
  | .error => "error"

/-- All phases, in the order of the status boxes. -/
def allPhases : List Phase :=
  [.idle, .running, .success, .warning, .error]

/-- For each status box, whether its class list contains `hidden`. -/
structure StatusBoxes where
  statusIdle : Bool
  statusRunning : Bool
  statusSuccess : Bool
  statusWarning : Bool
  statusError : Bool
deriving DecidableEq, Repr

/-- The function `hideAllStatuses()`: `classList.add("hidden")` on each of
the five boxes. -/
def hideAllStatuses (b : StatusBoxes) : StatusBoxes :=
  let b := { b with statusIdle := true }
  let b := { b with statusRunning := true }
  let b := { b with statusSuccess := true }
  let b := { b with statusWarning := true }
  { b with statusError := true }

/-- The function `showStatus(type)`: hide all, then
`classList.remove("hidden")` on the box selected by the `switch`; a string
that matches no `case` selects none. -/
def showStatus (type : String) (b : StatusBoxes) : StatusBoxes :=
  let b := hideAllStatuses b
  if type = "idle" then { b with statusIdle := false }
  else if type = "running" then { b with statusRunning := false }
  else if type = "success" then { b with statusSuccess := false }
  else if type = "warning" then { b with statusWarning := false }
  else if type = "error" then { b with statusError := false }
  else b

/-- The indicator of phase `p` is visible: its box is not `hidden`. -/
def isVisible (b : StatusBoxes) : Phase → Bool
  | .idle => !b.statusIdle
  | .running => !b.statusRunning
  | .success => !b.statusSuccess
  | .warning => !b.statusWarning
  | .error => !b.statusError

/-- The phases whose indicator is visible. -/
def visiblePhases (b : StatusBoxes) : List Phase :=
  allPhases.filter (isVisible b)

/-! ## Data model of the `/scan` response -/

/-- One element of `data.results`. The counts are the non-negative integers
the service reports. -/
structure ScanResultEntry where
  base_url : String
  pages_crawled : Nat
  pdf_count : Nat
  count_accessible : Nat
  count_likely : Nat
  count_inaccessible : Nat
deriving DecidableEq, Repr

/-- The parsed JSON body of an ok `/scan` response. Each of the three
properties may be missing from the object. -/
structure ScanResponse where
  results : Option (List ScanResultEntry)
  status : Option String
  zip_file : Option String
deriving DecidableEq, Repr

/-- A rendered result card (`app.js` lines 88-115). -/
structure Card where
  classes : List String
  icon : String
  title : String
  body : List (String × Nat)
deriving DecidableEq, Repr

/-- The card built for one entry inside `data.results.forEach`. -/
def renderCard (r : ScanResultEntry) : Card :=
  let statusClass := if r.pdf_count = 0 then "result-warning" else "result-success"
  { classes := ["result-card", statusClass]
    icon := if r.pdf_count = 0 then "⚠️" else "📄"
    title := r.base_url
    body := [("Pages crawled:", r.pages_crawled), ("PDFs found:", r.pdf_count),
             ("Accessible:", r.count_accessible), ("Likely inaccessible:", r.count_likely),
             ("Inaccessible:", r.count_inaccessible)] }

/-- The test `!data.zip_file`: the property is missing or is the empty
string. -/
def zipFalsy : Option String → Bool
  | none => true
  | some z => !truthy z

/-- The value assigned to `a.href`. -/
def zipHref : Option String → String
  | none => ""
  | some z => z

/-- The value of `data.results && data.results.some(r => r.pdf_count > 0 &&
r.pages_crawled > 1)` (`app.js` lines 139-141). -/
def hasAnyPdf (data : ScanResponse) : Bool :=
  match data.results with
  | none => false
  | some rs => rs.any (fun r => decide (r.pdf_count > 0) && decide (r.pages_crawled > 1))

/-! ## Controller state and effects -/

/-- The part of the page the controller reads and writes. -/
structure Controller where
  urlInput : String
  startDisabled : Bool
  resetDisabled : Bool
  results : List Card
  status : StatusBoxes
deriving DecidableEq, Repr

/-- What the controller does to the world outside the page state. -/
inductive Effect where
  | alert (msg : String)
  | fetchScan (urls : List String)
  | readBody
  | download (href : String)
  | consoleError
  | fetchStop
deriving DecidableEq, Repr

/-- How the `/scan` request settles: `fetch` rejects; the response is not
ok; the response is ok but `resp.json()` rejects; the response is ok and
its body parses to `data`. -/
inductive ScanOutcome where
  | threw
  | notOk
  | badBody
  | ok (data : ScanResponse)
deriving DecidableEq, Repr

/-- How the `/stop` request settles. -/
inductive StopOutcome where
  | threw
  | notOk
  | ok
deriving DecidableEq, Repr

/-- The phase shown is `p`: its indicator is the only visible one. -/
def showsPhase (s : Controller) (p : Phase) : Prop :=
  visiblePhases s.status = [p]

instance (s : Controller) (p : Phase) : Decidable (showsPhase s p) :=
  inferInstanceAs (Decidable (visiblePhases s.status = [p]))

/-- A page as plain markup leaves it: empty input, both buttons enabled,
no result card, no status box hidden. -/
def plainPage : Controller :=
  { urlInput := "", startDisabled := false, resetDisabled := false, results := [],
    status := ⟨false, false, false, false, false⟩ }

/-- The plain page with `text` typed into the input. -/
def pageWith (text : String) : Controller :=
  { plainPage with urlInput := text }

/-! ## `startScan` (`app.js` lines 59-151) -/

/-- The function `startScan` up to its first `await` (lines 60-78). The
third component tells whether the `/scan` request was sent. -/
def startScanSubmit (s : Controller) : Controller × List Effect × Bool :=
  let raw := jsTrim s.urlInput
  let urls := parseUrls raw
  if urls.isEmpty then
    (s, [Effect.alert "Please enter at least one URL to scan."], false)
  else
    let s := { s with status := showStatus "running" s.status }
    let s := { s with startDisabled := true }
    let s := { s with resetDisabled := false }
    let s := { s with results := [] }
    (s, [Effect.fetchScan urls], true)

/-- The body of the `try` block from the point where the request settles
(lines 74-143). `Except.ok` is normal completion (including the two early
`return`s), `Except.error` is a thrown exception, with the state and the
effects reached when it was thrown: `fetch` rejecting, `resp.json()`
rejecting, or the `TypeError` of `data.results.forEach` when `data` has no
`results`. -/
def scanTryBody (o : ScanOutcome) (s : Controller) :
    Except (Controller × List Effect) (Controller × List Effect) :=
  match o with
  | .threw => .error (s, [])
  | .notOk => .ok ({ s with status := showStatus "error" s.status }, [])
  | .badBody => .error (s, [Effect.readBody])
  | .ok data =>
    match data.results with
    | none => .error (s, [Effect.readBody])
    | some rs =>
      let s := { s with results := s.results ++ rs.map renderCard }
      if data.status = some "stopped" then
        .ok ({ s with status := showStatus "idle" s.status }, [Effect.readBody])
      else if zipFalsy data.zip_file then
        .ok ({ s with status := showStatus "warning" s.status }, [Effect.readBody])
      else
        let eff := [Effect.readBody, Effect.download (zipHref data.zip_file)]
        .ok ({ s with status := showStatus (if hasAnyPdf data then "success" else "warning")
                        s.status }, eff)

/-- The function `startScan` from the point where the request settles: the `try` body,
the `catch` clause (lines 145-147) and the `finally` clause (line 149). -/
def startScanSettle (o : ScanOutcome) (s : Controller) : Controller × List Effect :=
  let r :=
    match scanTryBody o s with
    | .ok r => r
    | .error (s, eff) =>
      ({ s with status := showStatus "error" s.status }, eff ++ [Effect.consoleError])
  ({ r.1 with startDisabled := false }, r.2)

/-- A whole run of `startScan` with nothing interleaved at the `await`. -/
def startScan (o : ScanOutcome) (s : Controller) : Controller × List Effect :=
  match startScanSubmit s with
  | (s1, eff, false) => (s1, eff)
  | (s1, eff, true) =>
    let r := startScanSettle o s1
    (r.1, eff ++ r.2)

/-- The hrefs of the downloads triggered. -/
def downloads (eff : List Effect) : List String :=
  eff.filterMap (fun e => match e with
    | .download h => some h
    | _ => none)

/-- The `/scan` requests sent. -/
def scanRequests (eff : List Effect) : List (List String) :=
  eff.filterMap (fun e => match e with
    | .fetchScan urls => some urls
    | _ => none)

/-! ## `stopAndReset` (`app.js` lines 156-166) -/

/-- The function `stopAndReset` up to its `await` (line 158). -/
def stopAndResetSubmit (s : Controller) : Controller × List Effect :=
  (s, [Effect.fetchStop])

/-- The function `stopAndReset` from the point where the `/stop` request
settles (lines 159-165). A rejection is caught by the empty `catch`; the
response is not looked at. -/
def stopAndResetSettle (_o : StopOutcome) (s : Controller) : Controller × List Effect :=
  let s := { s with urlInput := "" }
  let s := { s with results := [] }
  let s := { s with startDisabled := false }
  let s := { s with resetDisabled := true }
  ({ s with status := showStatus "idle" s.status }, [])

/-- A whole run of `stopAndReset` with nothing interleaved at the `await`. -/
def stopAndReset (o : StopOutcome) (s : Controller) : Controller × List Effect :=
  let r1 := stopAndResetSubmit s
  let r2 := stopAndResetSettle o r1.1
  (r2.1, r1.2 ++ r2.2)

/-! ## The event loop (`app.js` lines 171-176) -/

/-- The page state after the script has run to its end (lines 175-176),
from the page `html` as the markup builds it. The markup is not part of the
script, so it is an argument. -/
def boot (html : Controller) : Controller :=
  let s := { html with resetDisabled := true }
  { s with status := showStatus "idle" s.status }

/-- The page together with the requests that have not settled yet. -/
structure System where
  page : Controller
  scansInFlight : Nat
  stopsInFlight : Nat
deriving DecidableEq, Repr

/-- What can happen next: the user edits the input, clicks a button, or an
outstanding request settles. -/
inductive Event where
  | typeText (text : String)
  | startClick
  | stopClick
  | scanSettles (o : ScanOutcome)
  | stopSettles (o : StopOutcome)
deriving DecidableEq, Repr

/-- One turn of the event loop. A click on the disabled start button
dispatches nothing. A stop click always runs `stopAndReset`, also while the
reset button is disabled: this admits every call the browser can dispatch
and more. A settle event without an outstanding request does not occur and
leaves the system as it is. The two awaits of `startScan` on an ok response
(`fetch`, then `resp.json()`) are one settle event, as the code between
them neither reads nor writes the page. -/
def step (σ : System) : Event → System
  | .typeText text => { σ with page := { σ.page with urlInput := text } }
  | .startClick =>
    if σ.page.startDisabled then σ
    else
      match startScanSubmit σ.page with
      | (s, _, true) => { σ with page := s, scansInFlight := σ.scansInFlight + 1 }
      | (s, _, false) => { σ with page := s }
  | .stopClick =>
    { σ with page := (stopAndResetSubmit σ.page).1, stopsInFlight := σ.stopsInFlight + 1 }
  | .scanSettles o =>
    if σ.scansInFlight = 0 then σ
    else { σ with page := (startScanSettle o σ.page).1, scansInFlight := σ.scansInFlight - 1 }
  | .stopSettles o =>
    if σ.stopsInFlight = 0 then σ
    else { σ with page := (stopAndResetSettle o σ.page).1, stopsInFlight := σ.stopsInFlight - 1 }

/-- The system after the script has loaded on the page `html`. -/
def initial (html : Controller) : System :=
  { page := boot html, scansInFlight := 0, stopsInFlight := 0 }

/-- The system reached from the freshly loaded page by a sequence of
events. -/
def run (html : Controller) (evs : List Event) : System :=
  evs.foldl step (initial html)

/-- Whenever the start control is disabled a scan request is in flight. -/
def DisabledImpliesInFlight (σ : System) : Prop :=
  σ.page.startDisabled = true → 1 ≤ σ.scansInFlight

/-- The start control is disabled exactly when one scan request is in
flight, and no more than one is. -/
def SingleScan (σ : System) : Prop :=
  (σ.page.startDisabled = true ↔ σ.scansInFlight = 1) ∧ σ.scansInFlight ≤ 1

/-- The event `e`, in the system `σ`, is not the settling of an outstanding
`/stop` request while a scan request is in flight. -/
def settlesIdle (σ : System) : Event → Bool
  | .stopSettles _ => decide (σ.stopsInFlight = 0) || decide (σ.scansInFlight = 0)
  | _ => true

/-- In the run of the events from `σ`, no outstanding `/stop` request
settles while a scan request is in flight. -/
def stopsSettleIdle (σ : System) : List Event → Bool
  | [] => true
  | e :: es => settlesIdle σ e && stopsSettleIdle (step σ e) es

/-! # Theorems -/

/-! ## Input normaliser -/

theorem isSep_of_isJsSpace {c : Char} (h : isJsSpace c = true) : isSep c = true := by
  simp [isSep, h]

theorem not_space_of_not_sep {c : Char} (h : isSep c = false) : isJsSpace c = false := by
  cases hs : isJsSpace c with
  | false => rfl
  | true => rw [isSep_of_isJsSpace hs] at h; exact absurd h (by decide)

theorem splitRuns_cons_sep (b : Bool) (c : Char) (cs : List Char) (h : isSep c = true) :
    splitRuns b (c :: cs) = if b then splitRuns true cs else [] :: splitRuns true cs := by
  simp [splitRuns, h]

/-- The first piece of a split is the leading run of token characters; what
is left of the pieces, once the empty ones are dropped, is the list of the
later runs. -/
theorem splitRuns_false_shape (t : List Char) :
    ∃ tl, splitRuns false t = t.takeWhile (fun x => !isSep x) :: tl ∧
      tl.filter (fun p => !p.isEmpty) = runsFrom false t ∧
      (splitRuns true t).filter (fun p => !p.isEmpty) = runsFrom true t := by
  induction t with
  | nil => exact ⟨[], by simp [splitRuns, runsFrom]⟩
  | cons c cs ih =>
    obtain ⟨tl, h1, h2, h3⟩ := ih
    by_cases hc : isSep c = true
    · refine ⟨splitRuns true cs, ?_, ?_, ?_⟩
      · simp [splitRuns, hc]
      · simp [runsFrom, hc, h3]
      · simp [splitRuns, runsFrom, hc, h3]
    · have hc' : isSep c = false := by simpa using hc
      refine ⟨tl, ?_, ?_, ?_⟩
      · simp [splitRuns, hc', h1]
      · simp [runsFrom, hc', h2]
      · simp [splitRuns, runsFrom, hc', h1, h2]

/-- No piece of a split contains white space or a comma. -/
theorem splitRuns_no_sep (b : Bool) (t : List Char) :
    ∀ p ∈ splitRuns b t, ∀ c ∈ p, isSep c = false := by
  induction t generalizing b with
  | nil => simp [splitRuns]
  | cons c cs ih =>
    by_cases hc : isSep c = true
    · intro p hp
      rw [splitRuns_cons_sep b c cs hc] at hp
      cases b with
      | true => exact ih true p (by simpa using hp)
      | false =>
        rcases List.mem_cons.1 hp with h | h
        · subst h; simp
        · exact ih true p h
    · have hc' : isSep c = false := by simpa using hc
      intro p hp
      obtain ⟨tl, h1, -⟩ := splitRuns_false_shape cs
      have hp' : p = c :: cs.takeWhile (fun x => !isSep x) ∨ p ∈ tl := by
        simpa [splitRuns, hc', h1] using hp
      rcases hp' with h | h
      · subst h
        intro x hx
        rcases List.mem_cons.1 hx with hx | hx
        · subst hx; exact hc'
        · exact ih false _ (by rw [h1]; exact List.mem_cons_self _ _) x hx
      · exact ih false p (by rw [h1]; exact List.mem_cons_of_mem _ h)

theorem trimChars_eq_self (l : List Char) (h : ∀ c ∈ l, isJsSpace c = false) :
    trimChars l = l := by
  unfold trimChars
  have h1 : l.dropWhile isJsSpace = l := by
    cases l with
    | nil => rfl
    | cons a as => simp [List.dropWhile_cons, h a (List.mem_cons_self _ _)]
  rw [h1, List.rdropWhile_eq_self_iff]
  intro hl
  simpa using h _ (List.getLast_mem hl)

/-- Trimming is the identity on the pieces, so `parseUrls` returns the
non-empty pieces of the split. -/
theorem parseUrls_eq_pieces (text : String) :
    parseUrls text =
      ((splitRuns false text.toList).filter (fun p => !p.isEmpty)).map String.mk := by
  unfold parseUrls jsSplit
  rw [List.map_map]
  have hmap : (splitRuns false text.toList).map (jsTrim ∘ String.mk) =
      (splitRuns false text.toList).map String.mk := by
    apply List.map_congr_left
    intro p hp
    show String.mk (trimChars p) = String.mk p
    rw [trimChars_eq_self p (fun c hc =>
      not_space_of_not_sep (splitRuns_no_sep false _ p hp c hc))]
  rw [hmap, List.filter_map]
  rfl

theorem parseUrls_eq_runsFrom (text : String) :
    parseUrls text = (runsFrom true text.toList).map String.mk := by
  rw [parseUrls_eq_pieces]
  congr 1
  obtain ⟨tl, h1, h2, -⟩ := splitRuns_false_shape text.toList
  rw [h1]
  cases ht : text.toList with
  | nil => rw [ht] at h2; simpa [runsFrom] using h2
  | cons c cs =>
    rw [ht] at h2
    by_cases hc : isSep c = true
    · simpa [runsFrom, hc] using h2
    · have hc' : isSep c = false := by simpa using hc
      simpa [runsFrom, hc'] using h2

theorem startsRunAfter_succ (p : Bool) (c : Char) (cs : List Char) (i : Nat) :
    startsRunAfter p (c :: cs) (i + 1) = startsRunAfter (isSep c) cs i := by
  cases i with
  | zero => simp [startsRunAfter, tokenCharAt, sepAt]
  | succ j => simp [startsRunAfter, tokenCharAt, sepAt]

/-- The positional description of the runs agrees with the left-to-right
computation. -/
theorem runs_index (p : Bool) (t : List Char) :
    ((List.range t.length).filter (startsRunAfter p t)).map (runAt t) = runsFrom p t := by
  induction t generalizing p with
  | nil => simp [runsFrom]
  | cons c cs ih =>
    rw [List.length_cons, List.range_succ_eq_map, List.filter_cons, List.filter_map]
    have hf : (startsRunAfter p (c :: cs) ∘ Nat.succ) = startsRunAfter (isSep c) cs := by
      funext i; exact startsRunAfter_succ p c cs i
    have hr : (runAt (c :: cs) ∘ Nat.succ) = runAt cs := by
      funext i; simp [runAt]
    have h0 : startsRunAfter p (c :: cs) 0 = (p && !isSep c) := by
      simp [startsRunAfter, tokenCharAt, Bool.and_comm]
    rw [hf, h0]
    by_cases hpc : (p && !isSep c) = true
    · rw [if_pos hpc, List.map_cons, List.map_map, hr, ih]
      simp only [runsFrom, hpc, if_true]
      simp [runAt]
    · rw [if_neg hpc, List.map_map, hr, ih]
      simp only [runsFrom, hpc]
      simp

theorem startsRun_eq (t : List Char) : startsRun t = startsRunAfter true t := by
  funext i
  cases i with
  | zero => simp [startsRun, startsRunAfter]
  | succ j => simp [startsRun, startsRunAfter]

theorem runsFrom_no_sep (p : Bool) (t : List Char) :
    ∀ r ∈ runsFrom p t, r ≠ [] ∧ ∀ c ∈ r, isSep c = false := by
  induction t generalizing p with
  | nil => simp [runsFrom]
  | cons c cs ih =>
    intro r hr
    simp only [runsFrom, List.mem_append] at hr
    rcases hr with hr | hr
    · by_cases hpc : (p && !isSep c) = true
      · rw [if_pos hpc] at hr
        have hc : isSep c = false := by
          cases hs : isSep c with
          | false => rfl
          | true => simp [hs] at hpc
        have hr' : r = (c :: cs).takeWhile (fun x => !isSep x) := by simpa using hr
        subst hr'
        refine ⟨by simp [List.takeWhile_cons, hc], ?_⟩
        intro x hx
        simpa using List.mem_takeWhile_imp hx
      · rw [if_neg hpc] at hr
        exact absurd hr (List.not_mem_nil _)
    · exact ih _ r hr

theorem runsFrom_eq_nil_of_all_sep (p : Bool) (t : List Char)
    (h : ∀ c ∈ t, isSep c = true) : runsFrom p t = [] := by
  induction t generalizing p with
  | nil => rfl
  | cons c cs ih =>
    have hc := h c (List.mem_cons_self _ _)
    simp [runsFrom, hc, ih true (fun x hx => h x (List.mem_cons_of_mem _ hx))]

theorem all_sep_of_runsFrom_eq_nil (t : List Char) (h : runsFrom true t = []) :
    ∀ c ∈ t, isSep c = true := by
  induction t with
  | nil => simp
  | cons c cs ih =>
    by_cases hc : isSep c = true
    · have h2 : runsFrom true cs = [] := by simpa [runsFrom, hc] using h
      intro x hx
      rcases List.mem_cons.1 hx with hx | hx
      · subst hx; exact hc
      · exact ih h2 x hx
    · have hc' : isSep c = false := by simpa using hc
      simp [runsFrom, hc'] at h

/-- The normalised list is empty exactly for a text of white space and
commas only. -/
theorem parseUrls_eq_nil_iff (text : String) :
    parseUrls text = [] ↔ ∀ c ∈ text.toList, isSep c = true := by
  rw [parseUrls_eq_runsFrom, List.map_eq_nil_iff]
  exact ⟨all_sep_of_runsFrom_eq_nil _, runsFrom_eq_nil_of_all_sep true _⟩

theorem mem_dropWhile_or {c : Char} {l : List Char} (p : Char → Bool) (h : c ∈ l) :
    p c = true ∨ c ∈ l.dropWhile p := by
  rw [← List.takeWhile_append_dropWhile p l, List.mem_append] at h
  rcases h with h | h
  · exact Or.inl (List.mem_takeWhile_imp h)
  · exact Or.inr h

theorem mem_trimChars_or {c : Char} {l : List Char} (h : c ∈ l) :
    isJsSpace c = true ∨ c ∈ trimChars l := by
  rcases mem_dropWhile_or isJsSpace h with h1 | h1
  · exact Or.inl h1
  · have h2 : c ∈ (l.dropWhile isJsSpace).reverse := List.mem_reverse.2 h1
    rcases mem_dropWhile_or isJsSpace h2 with h3 | h3
    · exact Or.inl h3
    · right
      unfold trimChars List.rdropWhile
      exact List.mem_reverse.2 h3

theorem mem_of_mem_trimChars {c : Char} {l : List Char} (h : c ∈ trimChars l) : c ∈ l :=
  (List.dropWhile_sublist isJsSpace).subset
    ((List.rdropWhile_prefix isJsSpace (l := l.dropWhile isJsSpace)).subset h)

/-- The trimming of the input in `startScan` does not change whether the
normalised list is empty. -/
theorem parseUrls_jsTrim_eq_nil_iff (text : String) :
    parseUrls (jsTrim text) = [] ↔ parseUrls text = [] := by
  rw [parseUrls_eq_nil_iff, parseUrls_eq_nil_iff]
  constructor
  · intro h c hc
    rcases mem_trimChars_or hc with h1 | h1
    · exact isSep_of_isJsSpace h1
    · exact h c h1
  · intro h c hc
    exact h c (mem_of_mem_trimChars hc)

/-- C4: every token returned by `parseUrls` is non-empty and has no leading
and no trailing white space (it is its own trimming, and neither its first
nor its last character is white space); and for every text made only of
white space and commas, among them `""`, `"   "` and `",, ,"`, `parseUrls`
returns the empty sequence. -/
theorem C4_parseUrls_tokens_trimmed (text : String) :
    (∀ u ∈ parseUrls text, u ≠ "" ∧ jsTrim u = u ∧
      (∀ c, u.toList.head? = some c → isJsSpace c = false) ∧
      (∀ c, u.toList.getLast? = some c → isJsSpace c = false)) ∧
    ((∀ c ∈ text.toList, isJsSpace c = true ∨ c = ',') → parseUrls text = []) ∧
    parseUrls "" = [] ∧ parseUrls "   " = [] ∧ parseUrls ",, ," = [] := by
  refine ⟨?_, ?_, by decide, by decide, by decide⟩
  · intro u hu
    rw [parseUrls_eq_runsFrom, List.mem_map] at hu
    obtain ⟨r, hr, rfl⟩ := hu
    obtain ⟨hne, hsep⟩ := runsFrom_no_sep true _ r hr
    have hsp : ∀ c ∈ r, isJsSpace c = false := fun c hc => not_space_of_not_sep (hsep c hc)
    refine ⟨?_, ?_, ?_, ?_⟩
    · intro h
      exact hne (congrArg String.data h)
    · show String.mk (trimChars r) = String.mk r
      rw [trimChars_eq_self r hsp]
    · intro c hc
      exact hsp c (List.mem_of_mem_head? hc)
    · intro c hc
      exact hsp c (List.mem_of_getLast?_eq_some hc)
  · intro h
    rw [parseUrls_eq_nil_iff]
    intro c hc
    rcases h c hc with h1 | h1
    · exact isSep_of_isJsSpace h1
    · subst h1; decide

/-- C4 at concrete inputs: the token `"b.com"` of `"a.com,  b.com "`, and the
text `" ,\t, "` of separators only. -/
theorem C4_parseUrls_tokens_trimmed_witness :
    ("b.com" ≠ "" ∧ jsTrim "b.com" = "b.com" ∧
      (∀ c, "b.com".toList.head? = some c → isJsSpace c = false) ∧
      (∀ c, "b.com".toList.getLast? = some c → isJsSpace c = false)) ∧
    parseUrls " ,\t, " = [] :=
  ⟨(C4_parseUrls_tokens_trimmed "a.com,  b.com ").1 "b.com" (by decide),
   (C4_parseUrls_tokens_trimmed " ,\t, ").2.1 (by decide)⟩

/-- C5: for every input text, `parseUrls text` is exactly the sequence of
the maximal runs of characters that are neither white space nor a comma, in
their order of occurrence, duplicates retained; for example
`parseUrls "a.com, b.com  c.com" = ["a.com", "b.com", "c.com"]`. -/
theorem C5_parseUrls_eq_maximalRuns (text : String) :
    parseUrls text = maximalRuns text ∧
    parseUrls "a.com, b.com  c.com" = ["a.com", "b.com", "c.com"] ∧
    parseUrls "a.com b.com,a.com" = ["a.com", "b.com", "a.com"] := by
  refine ⟨?_, by decide, by decide⟩
  rw [parseUrls_eq_runsFrom, maximalRuns, startsRun_eq, runs_index]

/-! ## Status presenter -/

theorem visiblePhases_showStatus (p : Phase) (b : StatusBoxes) :
    visiblePhases (showStatus p.name b) = [p] := by
  cases p <;> rfl

theorem showStatus_showStatus (p : Phase) (b : StatusBoxes) :
    showStatus p.name (showStatus p.name b) = showStatus p.name b := by
  cases p <;> rfl

/-- C10: after a call of `showStatus` for a phase, from any prior visibility
of the five indicators, exactly one indicator is visible, the one of the
requested phase, and the other four are hidden; and calling `showStatus`
twice with the same phase gives the same visibility as calling it once. -/
theorem C10_showStatus_exactly_one_visible (p : Phase) (b : StatusBoxes) :
    visiblePhases (showStatus p.name b) = [p] ∧
    (∀ q : Phase, isVisible (showStatus p.name b) q = decide (q = p)) ∧
    showStatus p.name (showStatus p.name b) = showStatus p.name b := by
  refine ⟨visiblePhases_showStatus p b, ?_, showStatus_showStatus p b⟩
  intro q
  cases p <;> cases q <;> rfl

/-! ## `stopAndReset` -/

/-- C7: from every controller state and for every outcome of the `/stop`
request (success, not-ok response, thrown exception), `stopAndReset` ends
with phase idle, empty input text, empty rendered results, the reset
control disabled and the start control enabled; the same holds of its
continuation resumed in any state `s2` the page has reached when the request
settles. -/
theorem C7_stopAndReset_always_resets (s s2 : Controller) (o : StopOutcome) :
    (showsPhase (stopAndReset o s).1 .idle ∧ (stopAndReset o s).1.urlInput = "" ∧
      (stopAndReset o s).1.results = [] ∧ (stopAndReset o s).1.resetDisabled = true ∧
      (stopAndReset o s).1.startDisabled = false) ∧
    (showsPhase (stopAndResetSettle o s2).1 .idle ∧ (stopAndResetSettle o s2).1.urlInput = "" ∧
      (stopAndResetSettle o s2).1.results = [] ∧
      (stopAndResetSettle o s2).1.resetDisabled = true ∧
      (stopAndResetSettle o s2).1.startDisabled = false) :=
  ⟨⟨visiblePhases_showStatus .idle s.status, rfl, rfl, rfl, rfl⟩,
   ⟨visiblePhases_showStatus .idle s2.status, rfl, rfl, rfl, rfl⟩⟩

/-! ## `startScan` -/

theorem startScanSubmit_of_empty (s : Controller) (h : parseUrls s.urlInput = []) :
    startScanSubmit s = (s, [Effect.alert "Please enter at least one URL to scan."], false) := by
  have h2 := (parseUrls_jsTrim_eq_nil_iff s.urlInput).2 h
  simp [startScanSubmit, h2]

theorem startScanSubmit_of_urls (s : Controller) (h : parseUrls s.urlInput ≠ []) :
    startScanSubmit s =
      ({ s with status := showStatus "running" s.status, startDisabled := true,
                resetDisabled := false, results := [] },
        [Effect.fetchScan (parseUrls (jsTrim s.urlInput))], true) := by
  have h2 : parseUrls (jsTrim s.urlInput) ≠ [] :=
    fun h3 => h ((parseUrls_jsTrim_eq_nil_iff s.urlInput).1 h3)
  simp [startScanSubmit, h2]

/-- A whole run that sends the request is the continuation resumed in a
state with an empty result area. -/
theorem startScan_of_urls (o : ScanOutcome) (s : Controller) (h : parseUrls s.urlInput ≠ []) :
    ∃ s1 : Controller, s1.results = [] ∧ s1.urlInput = s.urlInput ∧
      startScan o s = ((startScanSettle o s1).1,
        Effect.fetchScan (parseUrls (jsTrim s.urlInput)) :: (startScanSettle o s1).2) := by
  refine ⟨{ s with status := showStatus "running" s.status, startDisabled := true,
                   resetDisabled := false, results := [] }, rfl, rfl, ?_⟩
  simp [startScan, startScanSubmit_of_urls s h]

theorem startScanSettle_startDisabled (o : ScanOutcome) (s : Controller) :
    (startScanSettle o s).1.startDisabled = false := rfl

/-- The continuation on a transport failure. -/
theorem startScanSettle_failure (o : ScanOutcome) (s : Controller)
    (ho : o = .threw ∨ o = .notOk) :
    showsPhase (startScanSettle o s).1 .error ∧ (startScanSettle o s).1.results = s.results ∧
      Effect.readBody ∉ (startScanSettle o s).2 := by
  rcases ho with rfl | rfl
  · refine ⟨visiblePhases_showStatus .error s.status, rfl, ?_⟩
    show Effect.readBody ∉ [Effect.consoleError]
    decide
  · refine ⟨visiblePhases_showStatus .error s.status, rfl, ?_⟩
    show Effect.readBody ∉ []
    decide

/-- The continuation on an ok response without `results`: the exception of
line 87 is caught. -/
theorem startScanSettle_no_results (s : Controller) (data : ScanResponse)
    (hres : data.results = none) :
    showsPhase (startScanSettle (.ok data) s).1 .error ∧
      (startScanSettle (.ok data) s).1.results = s.results ∧
      downloads (startScanSettle (.ok data) s).2 = [] := by
  have e : startScanSettle (.ok data) s =
      ({ s with status := showStatus "error" s.status, startDisabled := false },
        [Effect.readBody, Effect.consoleError]) := by
    simp [startScanSettle, scanTryBody, hres]
  rw [e]
  exact ⟨visiblePhases_showStatus .error s.status, rfl, rfl⟩

/-- The continuation on an ok response with `results` and status
`"stopped"`. -/
theorem startScanSettle_stopped (s : Controller) (data : ScanResponse)
    (rs : List ScanResultEntry) (hres : data.results = some rs)
    (hst : data.status = some "stopped") :
    showsPhase (startScanSettle (.ok data) s).1 .idle ∧
      (startScanSettle (.ok data) s).1.results = s.results ++ rs.map renderCard ∧
      downloads (startScanSettle (.ok data) s).2 = [] := by
  have e : startScanSettle (.ok data) s =
      ({ s with results := s.results ++ rs.map renderCard,
                status := showStatus "idle" s.status, startDisabled := false },
        [Effect.readBody]) := by
    simp [startScanSettle, scanTryBody, hres, hst]
  rw [e]
  exact ⟨visiblePhases_showStatus .idle s.status, rfl, rfl⟩

/-- The continuation on an ok response with `results`, another status and
no usable `zip_file`. -/
theorem startScanSettle_no_zip (s : Controller) (data : ScanResponse)
    (rs : List ScanResultEntry) (hres : data.results = some rs)
    (hst : data.status ≠ some "stopped") (hz : zipFalsy data.zip_file = true) :
    showsPhase (startScanSettle (.ok data) s).1 .warning ∧
      (startScanSettle (.ok data) s).1.results = s.results ++ rs.map renderCard ∧
      downloads (startScanSettle (.ok data) s).2 = [] := by
  have e : startScanSettle (.ok data) s =
      ({ s with results := s.results ++ rs.map renderCard,
                status := showStatus "warning" s.status, startDisabled := false },
        [Effect.readBody]) := by
    simp [startScanSettle, scanTryBody, hres, hst, hz]
  rw [e]
  exact ⟨visiblePhases_showStatus .warning s.status, rfl, rfl⟩

/-- The continuation on an ok response with `results`, another status and a
usable `zip_file`: the download is triggered, then the phase is chosen. -/
theorem startScanSettle_zip (s : Controller) (data : ScanResponse)
    (rs : List ScanResultEntry) (hres : data.results = some rs)
    (hst : data.status ≠ some "stopped") (hz : zipFalsy data.zip_file = false) :
    showsPhase (startScanSettle (.ok data) s).1
        (if hasAnyPdf data then Phase.success else Phase.warning) ∧
      (startScanSettle (.ok data) s).1.results = s.results ++ rs.map renderCard ∧
      downloads (startScanSettle (.ok data) s).2 = [zipHref data.zip_file] := by
  have e : startScanSettle (.ok data) s =
      ({ s with results := s.results ++ rs.map renderCard,
                status := showStatus (if hasAnyPdf data then "success" else "warning") s.status,
                startDisabled := false },
        [Effect.readBody, Effect.download (zipHref data.zip_file)]) := by
    simp [startScanSettle, scanTryBody, hres, hst, hz]
  rw [e]
  refine ⟨?_, rfl, rfl⟩
  cases hasAnyPdf data
  · exact visiblePhases_showStatus .warning s.status
  · exact visiblePhases_showStatus .success s.status

theorem showsPhase_unique {s : Controller} {p q : Phase} (hp : showsPhase s p)
    (hq : showsPhase s q) : p = q := by
  unfold showsPhase at hp hq
  rw [hp] at hq
  exact List.head_eq_of_cons_eq hq

theorem zipFalsy_eq_false_iff (z : Option String) :
    zipFalsy z = false ↔ ∃ x, z = some x ∧ x ≠ "" := by
  cases z with
  | none => simp [zipFalsy]
  | some x =>
    have hx : x.data = [] ↔ x = "" :=
      ⟨fun h => String.ext h, fun h => by rw [h]⟩
    simp [zipFalsy, truthy, hx]

theorem hasAnyPdf_iff (data : ScanResponse) (rs : List ScanResultEntry)
    (hres : data.results = some rs) :
    hasAnyPdf data = true ↔ ∃ r ∈ rs, r.pdf_count > 0 ∧ r.pages_crawled > 1 := by
  simp [hasAnyPdf, hres]

/-- The phase chosen by the continuation for a response with `results` that
is not stopped. -/
theorem startScanSettle_phase (s : Controller) (data : ScanResponse)
    (rs : List ScanResultEntry) (hres : data.results = some rs)
    (hst : data.status ≠ some "stopped") :
    (showsPhase (startScanSettle (.ok data) s).1 .success ↔
      ((∃ z, data.zip_file = some z ∧ z ≠ "") ∧
        ∃ r ∈ rs, r.pdf_count > 0 ∧ r.pages_crawled > 1)) ∧
    (¬((∃ z, data.zip_file = some z ∧ z ≠ "") ∧
        ∃ r ∈ rs, r.pdf_count > 0 ∧ r.pages_crawled > 1) →
      showsPhase (startScanSettle (.ok data) s).1 .warning) := by
  rw [← zipFalsy_eq_false_iff, ← hasAnyPdf_iff data rs hres]
  cases hz : zipFalsy data.zip_file with
  | true =>
    have h := (startScanSettle_no_zip s data rs hres hst hz).1
    refine ⟨⟨fun h2 => ?_, fun h2 => ?_⟩, fun _ => h⟩
    · exact absurd (showsPhase_unique h2 h) (by decide)
    · exact absurd h2.1 (by decide)
  | false =>
    have h := (startScanSettle_zip s data rs hres hst hz).1
    cases hp : hasAnyPdf data with
    | true =>
      rw [hp] at h
      exact ⟨⟨fun _ => ⟨rfl, rfl⟩, fun _ => h⟩, fun h2 => absurd ⟨rfl, rfl⟩ h2⟩
    | false =>
      rw [hp] at h
      refine ⟨⟨fun h2 => ?_, fun h2 => ?_⟩, fun _ => h⟩
      · exact absurd (showsPhase_unique h2 h) (by decide)
      · exact absurd h2.2 (by decide)

/-- When the continuation triggers a download, for any ok response. -/
theorem startScanSettle_download (s : Controller) (data : ScanResponse) :
    (downloads (startScanSettle (.ok data) s).2 ≠ [] ↔
      (showsPhase (startScanSettle (.ok data) s).1 .success ∨
        (showsPhase (startScanSettle (.ok data) s).1 .warning ∧
          ∃ z, data.zip_file = some z ∧ z ≠ ""))) ∧
    (downloads (startScanSettle (.ok data) s).2 = [] ∨
      ∃ z, data.zip_file = some z ∧ downloads (startScanSettle (.ok data) s).2 = [z]) := by
  rw [← zipFalsy_eq_false_iff]
  cases hres : data.results with
  | none =>
    obtain ⟨h1, -, h3⟩ := startScanSettle_no_results s data hres
    refine ⟨⟨fun h => absurd h3 h, fun h => ?_⟩, Or.inl h3⟩
    rcases h with h | ⟨h, -⟩
    · exact absurd (showsPhase_unique h h1) (by decide)
    · exact absurd (showsPhase_unique h h1) (by decide)
  | some rs =>
    by_cases hst : data.status = some "stopped"
    · obtain ⟨h1, -, h3⟩ := startScanSettle_stopped s data rs hres hst
      refine ⟨⟨fun h => absurd h3 h, fun h => ?_⟩, Or.inl h3⟩
      rcases h with h | ⟨h, -⟩
      · exact absurd (showsPhase_unique h h1) (by decide)
      · exact absurd (showsPhase_unique h h1) (by decide)
    · cases hz : zipFalsy data.zip_file with
      | true =>
        obtain ⟨h1, -, h3⟩ := startScanSettle_no_zip s data rs hres hst hz
        refine ⟨⟨fun h => absurd h3 h, fun h => ?_⟩, Or.inl h3⟩
        rcases h with h | ⟨-, h⟩
        · exact absurd (showsPhase_unique h h1) (by decide)
        · exact absurd h (by decide)
      | false =>
        obtain ⟨h1, -, h3⟩ := startScanSettle_zip s data rs hres hst hz
        obtain ⟨z, hzs, -⟩ := (zipFalsy_eq_false_iff data.zip_file).1 hz
        have h4 : downloads (startScanSettle (.ok data) s).2 = [z] := by
          rw [h3, hzs]; rfl
        refine ⟨⟨fun _ => ?_, fun _ => by rw [h4]; exact List.cons_ne_nil _ _⟩,
          Or.inr ⟨z, hzs, h4⟩⟩
        cases hp : hasAnyPdf data with
        | true => rw [hp] at h1; exact Or.inl h1
        | false => rw [hp] at h1; exact Or.inr ⟨h1, rfl⟩

/-- C8: for every controller state and every input text whose normalised
URL list is empty, `startScan` sends no request and leaves the whole
controller state unchanged (phase, enablement of both controls, rendered
results, input text); its only effect is the user notice. A click on the
start button in such a state leaves the system, requests in flight
included, as it is. -/
theorem C8_empty_input_changes_nothing (s : Controller) (o : ScanOutcome) (n m : Nat)
    (h : parseUrls s.urlInput = []) :
    startScan o s = (s, [Effect.alert "Please enter at least one URL to scan."]) ∧
    scanRequests (startScan o s).2 = [] ∧
    step ⟨s, n, m⟩ .startClick = ⟨s, n, m⟩ := by
  have e := startScanSubmit_of_empty s h
  have e1 : startScan o s = (s, [Effect.alert "Please enter at least one URL to scan."]) := by
    simp [startScan, e]
  refine ⟨e1, by rw [e1]; rfl, ?_⟩
  by_cases hd : s.startDisabled = true
  · simp [step, hd]
  · simp [step, hd, e]

/-- C8 at the input `" , "`. -/
theorem C8_empty_input_changes_nothing_witness :
    startScan .notOk (pageWith " , ") =
      (pageWith " , ", [Effect.alert "Please enter at least one URL to scan."]) :=
  (C8_empty_input_changes_nothing (pageWith " , ") .notOk 0 0 (by decide)).1

/-- C6: for every non-empty normalised URL list, if the `/scan` request
throws or returns a not-ok response, `startScan` ends in phase error with an
empty result area (no entry is rendered and the body is never read) and
with the start control enabled again. Resumed in any state `s2`, the
continuation shows error, adds no card, reads no body and enables the start
control. -/
theorem C6_transport_failure_shows_error (s s2 : Controller) (o : ScanOutcome)
    (hurls : parseUrls s.urlInput ≠ []) (ho : o = .threw ∨ o = .notOk) :
    (showsPhase (startScan o s).1 .error ∧ (startScan o s).1.results = [] ∧
      (startScan o s).1.startDisabled = false ∧ Effect.readBody ∉ (startScan o s).2) ∧
    (showsPhase (startScanSettle o s2).1 .error ∧
      (startScanSettle o s2).1.results = s2.results ∧
      (startScanSettle o s2).1.startDisabled = false ∧
      Effect.readBody ∉ (startScanSettle o s2).2) := by
  obtain ⟨s1, hr, -, e⟩ := startScan_of_urls o s hurls
  obtain ⟨h1, h2, h3⟩ := startScanSettle_failure o s1 ho
  obtain ⟨k1, k2, k3⟩ := startScanSettle_failure o s2 ho
  refine ⟨?_, k1, k2, rfl, k3⟩
  rw [e]
  refine ⟨h1, by rw [← hr]; exact h2, rfl, ?_⟩
  intro hmem
  rcases List.mem_cons.1 hmem with hmem | hmem
  · exact Effect.noConfusion hmem
  · exact h3 hmem

/-- C6 for the input `"a.com"` and a not-ok response. -/
theorem C6_transport_failure_shows_error_witness :
    showsPhase (startScan .notOk (pageWith "a.com")).1 .error ∧
      (startScan .notOk (pageWith "a.com")).1.results = [] ∧
      (startScan .notOk (pageWith "a.com")).1.startDisabled = false ∧
      Effect.readBody ∉ (startScan .notOk (pageWith "a.com")).2 :=
  (C6_transport_failure_shows_error (pageWith "a.com") plainPage .notOk
    (by decide) (Or.inr rfl)).1

/-- C1, the code on the response `{status:"stopped"}`: an ok response whose
status is `"stopped"` and that carries no `results` makes
`data.results.forEach` throw before the status is looked at, and `startScan`
ends in phase error, not idle (nothing is downloaded); with `results`
present the same status ends in phase idle without a download, whatever
`zip_file` is. -/
theorem C1_stopped_without_results_shows_error (s : Controller) (zip : Option String)
    (rs : List ScanResultEntry) :
    (showsPhase (startScanSettle (.ok ⟨none, some "stopped", zip⟩) s).1 .error ∧
      ¬showsPhase (startScanSettle (.ok ⟨none, some "stopped", zip⟩) s).1 .idle ∧
      downloads (startScanSettle (.ok ⟨none, some "stopped", zip⟩) s).2 = []) ∧
    (showsPhase (startScan (.ok ⟨none, some "stopped", none⟩) (pageWith "a.com")).1 .error ∧
      ¬showsPhase (startScan (.ok ⟨none, some "stopped", none⟩) (pageWith "a.com")).1 .idle) ∧
    (showsPhase (startScanSettle (.ok ⟨some rs, some "stopped", zip⟩) s).1 .idle ∧
      downloads (startScanSettle (.ok ⟨some rs, some "stopped", zip⟩) s).2 = []) := by
  obtain ⟨h1, -, h3⟩ := startScanSettle_no_results s ⟨none, some "stopped", zip⟩ rfl
  obtain ⟨k1, -, k3⟩ := startScanSettle_stopped s ⟨some rs, some "stopped", zip⟩ rs rfl rfl
  refine ⟨⟨h1, fun h => ?_, h3⟩, ⟨by decide, by decide⟩, k1, k3⟩
  exact absurd (showsPhase_unique h h1) (by decide)

/-- C2: for every ok `/scan` response whose status is not `"stopped"` and
that carries a results sequence, the terminal phase shown by `startScan` is
success if and only if `zip_file` is present and non-empty and some entry of
`results` has `pdf_count > 0` and `pages_crawled > 1`; in every other case it
is warning. This holds of a whole run from a state `s` with a non-empty
normalised URL list and of the continuation resumed in any state `s2`. -/
theorem C2_success_iff_zip_and_finding (s s2 : Controller) (data : ScanResponse)
    (rs : List ScanResultEntry) (hurls : parseUrls s.urlInput ≠ [])
    (hres : data.results = some rs) (hst : data.status ≠ some "stopped") :
    ((showsPhase (startScan (.ok data) s).1 .success ↔
        ((∃ z, data.zip_file = some z ∧ z ≠ "") ∧
          ∃ r ∈ rs, r.pdf_count > 0 ∧ r.pages_crawled > 1)) ∧
      (¬((∃ z, data.zip_file = some z ∧ z ≠ "") ∧
          ∃ r ∈ rs, r.pdf_count > 0 ∧ r.pages_crawled > 1) →
        showsPhase (startScan (.ok data) s).1 .warning)) ∧
    ((showsPhase (startScanSettle (.ok data) s2).1 .success ↔
        ((∃ z, data.zip_file = some z ∧ z ≠ "") ∧
          ∃ r ∈ rs, r.pdf_count > 0 ∧ r.pages_crawled > 1)) ∧
      (¬((∃ z, data.zip_file = some z ∧ z ≠ "") ∧
          ∃ r ∈ rs, r.pdf_count > 0 ∧ r.pages_crawled > 1) →
        showsPhase (startScanSettle (.ok data) s2).1 .warning)) := by
  obtain ⟨s1, -, -, e⟩ := startScan_of_urls (.ok data) s hurls
  refine ⟨?_, startScanSettle_phase s2 data rs hres hst⟩
  rw [e]
  exact startScanSettle_phase s1 data rs hres hst

/-- C2 at the responses of the specification: `{results:[{pdf_count:5,
pages_crawled:2}], zip_file:"x.zip"}` gives success; the same entry without
`zip_file`, and `{results:[{pdf_count:0, ...}], zip_file:"x.zip"}`, give
warning. -/
theorem C2_success_iff_zip_and_finding_witness :
    showsPhase (startScan (.ok ⟨some [⟨"a.com", 2, 5, 5, 0, 0⟩], none, some "x.zip"⟩)
      (pageWith "a.com")).1 .success ∧
    showsPhase (startScan (.ok ⟨some [⟨"a.com", 2, 5, 5, 0, 0⟩], none, none⟩)
      (pageWith "a.com")).1 .warning ∧
    showsPhase (startScan (.ok ⟨some [⟨"a.com", 2, 0, 0, 0, 0⟩], none, some "x.zip"⟩)
      (pageWith "a.com")).1 .warning :=
  ⟨(C2_success_iff_zip_and_finding (pageWith "a.com") plainPage
      ⟨some [⟨"a.com", 2, 5, 5, 0, 0⟩], none, some "x.zip"⟩ _ (by decide) rfl (by decide)).1.1.2
      ⟨⟨"x.zip", rfl, by decide⟩, ⟨"a.com", 2, 5, 5, 0, 0⟩, by simp, by decide, by decide⟩,
   (C2_success_iff_zip_and_finding (pageWith "a.com") plainPage
      ⟨some [⟨"a.com", 2, 5, 5, 0, 0⟩], none, none⟩ _ (by decide) rfl (by decide)).1.2
      (fun h => by obtain ⟨⟨z, hz, -⟩, -⟩ := h; exact Option.noConfusion hz),
   (C2_success_iff_zip_and_finding (pageWith "a.com") plainPage
      ⟨some [⟨"a.com", 2, 0, 0, 0, 0⟩], none, some "x.zip"⟩ _ (by decide) rfl (by decide)).1.2
      (fun h => by
        obtain ⟨-, r, hr, hp, -⟩ := h
        rw [List.mem_singleton] at hr
        subst hr
        exact absurd hp (by decide))⟩

/-- C3 as stated fails: on `{results:[{pdf_count:0, pages_crawled:3}],
zip_file:"x.zip"}` `startScan` ends in phase warning and has triggered the
download of `x.zip`. -/
theorem C3_warning_still_downloads :
    showsPhase (startScan (.ok ⟨some [⟨"a.com", 3, 0, 0, 0, 0⟩], none, some "x.zip"⟩)
      (pageWith "a.com")).1 .warning ∧
    downloads (startScan (.ok ⟨some [⟨"a.com", 3, 0, 0, 0, 0⟩], none, some "x.zip"⟩)
      (pageWith "a.com")).2 = ["x.zip"] := by
  decide

/-- C3 amended: for every ok `/scan` response, `startScan` triggers a
download if and only if the terminal phase is success, or is warning while
`zip_file` is present and non-empty; a download it triggers is the download
of exactly its `zip_file`. So a response that resolves to success downloads
its `zip_file`, and one that resolves to idle, to error, or to warning
without a usable `zip_file` triggers no download. This holds of a whole run
from a state `s` with a non-empty normalised URL list and of the
continuation resumed in any state `s2`. -/
theorem C3_download_iff_zip_reached (s s2 : Controller) (data : ScanResponse)
    (hurls : parseUrls s.urlInput ≠ []) :
    ((downloads (startScan (.ok data) s).2 ≠ [] ↔
        (showsPhase (startScan (.ok data) s).1 .success ∨
          (showsPhase (startScan (.ok data) s).1 .warning ∧
            ∃ z, data.zip_file = some z ∧ z ≠ ""))) ∧
      (downloads (startScan (.ok data) s).2 = [] ∨
        ∃ z, data.zip_file = some z ∧ downloads (startScan (.ok data) s).2 = [z])) ∧
    ((downloads (startScanSettle (.ok data) s2).2 ≠ [] ↔
        (showsPhase (startScanSettle (.ok data) s2).1 .success ∨
          (showsPhase (startScanSettle (.ok data) s2).1 .warning ∧
            ∃ z, data.zip_file = some z ∧ z ≠ ""))) ∧
      (downloads (startScanSettle (.ok data) s2).2 = [] ∨
        ∃ z, data.zip_file = some z ∧ downloads (startScanSettle (.ok data) s2).2 = [z])) := by
  obtain ⟨s1, -, -, e⟩ := startScan_of_urls (.ok data) s hurls
  refine ⟨?_, startScanSettle_download s2 data⟩
  rw [e]
  exact startScanSettle_download s1 data

/-- C3 amended, at the success response of the specification: the download
is triggered, and it is the download of `x.zip`. -/
theorem C3_download_iff_zip_reached_witness :
    downloads (startScan (.ok ⟨some [⟨"a.com", 2, 5, 5, 0, 0⟩], none, some "x.zip"⟩)
      (pageWith "a.com")).2 ≠ [] ∧
    (downloads (startScan (.ok ⟨some [⟨"a.com", 2, 5, 5, 0, 0⟩], none, some "x.zip"⟩)
        (pageWith "a.com")).2 = [] ∨
      ∃ z, some "x.zip" = some z ∧
        downloads (startScan (.ok ⟨some [⟨"a.com", 2, 5, 5, 0, 0⟩], none, some "x.zip"⟩)
          (pageWith "a.com")).2 = [z]) :=
  ⟨(C3_download_iff_zip_reached (pageWith "a.com") plainPage
      ⟨some [⟨"a.com", 2, 5, 5, 0, 0⟩], none, some "x.zip"⟩ (by decide)).1.1.2
      (Or.inl (by decide)),
   (C3_download_iff_zip_reached (pageWith "a.com") plainPage
      ⟨some [⟨"a.com", 2, 5, 5, 0, 0⟩], none, some "x.zip"⟩ (by decide)).1.2⟩

/-! ## The event loop -/

theorem step_startClick_cases (σ : System) :
    step σ .startClick = σ ∨
      (σ.page.startDisabled = false ∧ (step σ .startClick).page.startDisabled = true ∧
        (step σ .startClick).scansInFlight = σ.scansInFlight + 1 ∧
        (step σ .startClick).stopsInFlight = σ.stopsInFlight) := by
  by_cases hd : σ.page.startDisabled = true
  · left; simp [step, hd]
  · have hd' : σ.page.startDisabled = false := by simpa using hd
    by_cases hu : parseUrls σ.page.urlInput = []
    · left; simp [step, hd', startScanSubmit_of_empty σ.page hu]
    · right
      simp [step, hd', startScanSubmit_of_urls σ.page hu]

theorem step_preserves_disabledImpliesInFlight (σ : System) (e : Event)
    (h : DisabledImpliesInFlight σ) : DisabledImpliesInFlight (step σ e) := by
  cases e with
  | typeText text => exact h
  | startClick =>
    rcases step_startClick_cases σ with h1 | ⟨-, -, h3, -⟩
    · rw [h1]; exact h
    · intro _; rw [h3]; exact Nat.le_add_left 1 _
  | stopClick => exact h
  | scanSettles o =>
    by_cases h0 : σ.scansInFlight = 0
    · simp only [step, h0, if_true]; exact h
    · simp only [step, h0, if_false]
      intro hd
      rw [startScanSettle_startDisabled] at hd
      exact absurd hd (by decide)
  | stopSettles o =>
    by_cases h0 : σ.stopsInFlight = 0
    · simp only [step, h0, if_true]; exact h
    · simp only [step, h0, if_false]
      intro hd
      exact Bool.noConfusion (show false = true from hd)

theorem step_preserves_singleScan (σ : System) (e : Event) (he : settlesIdle σ e = true)
    (h : SingleScan σ) : SingleScan (step σ e) := by
  obtain ⟨hiff, hle⟩ := h
  cases e with
  | typeText text => exact ⟨hiff, hle⟩
  | startClick =>
    rcases step_startClick_cases σ with h1 | ⟨h0, h2, h3, -⟩
    · rw [h1]; exact ⟨hiff, hle⟩
    · have hz : σ.scansInFlight = 0 := by
        have hne : σ.scansInFlight ≠ 1 := fun h1 => by
          rw [hiff.2 h1] at h0; exact absurd h0 (by decide)
        omega
      refine ⟨?_, ?_⟩
      · rw [h2, h3, hz]; simp
      · rw [h3, hz]
  | stopClick => exact ⟨hiff, hle⟩
  | scanSettles o =>
    by_cases h0 : σ.scansInFlight = 0
    · simp only [step, h0, if_true]; exact ⟨hiff, hle⟩
    · simp only [step, h0, if_false]
      refine ⟨?_, ?_⟩
      · rw [startScanSettle_startDisabled]
        constructor
        · intro hd; exact absurd hd (by decide)
        · intro h1
          have h2 : σ.scansInFlight - 1 = 1 := h1
          omega
      · show σ.scansInFlight - 1 ≤ 1
        omega
  | stopSettles o =>
    by_cases h0 : σ.stopsInFlight = 0
    · simp only [step, h0, if_true]; exact ⟨hiff, hle⟩
    · have hz : σ.scansInFlight = 0 := by
        simpa [settlesIdle, h0] using he
      simp only [step, h0, if_false]
      refine ⟨?_, ?_⟩
      · constructor
        · intro hd; exact Bool.noConfusion (show false = true from hd)
        · intro h1
          have h2 : σ.scansInFlight = 1 := h1
          omega
      · show σ.scansInFlight ≤ 1
        omega

theorem foldl_disabledImpliesInFlight (evs : List Event) (σ : System)
    (h : DisabledImpliesInFlight σ) : DisabledImpliesInFlight (evs.foldl step σ) := by
  induction evs generalizing σ with
  | nil => exact h
  | cons e es ih => exact ih (step σ e) (step_preserves_disabledImpliesInFlight σ e h)

theorem foldl_singleScan (evs : List Event) (σ : System)
    (hev : stopsSettleIdle σ evs = true) (h : SingleScan σ) :
    SingleScan (evs.foldl step σ) := by
  induction evs generalizing σ with
  | nil => exact h
  | cons e es ih =>
    simp only [stopsSettleIdle, Bool.and_eq_true] at hev
    exact ih (step σ e) hev.2 (step_preserves_singleScan σ e hev.1 h)

/-- A run without a stop click from a state without an outstanding `/stop`
request never settles one. -/
theorem stopsSettleIdle_of_no_stopClick (evs : List Event) (σ : System)
    (h0 : σ.stopsInFlight = 0) (hev : Event.stopClick ∉ evs) :
    stopsSettleIdle σ evs = true := by
  induction evs generalizing σ with
  | nil => rfl
  | cons e es ih =>
    have he : e ≠ .stopClick := fun h1 => hev (by rw [h1]; exact List.mem_cons_self _ _)
    have hes : Event.stopClick ∉ es := fun h1 => hev (List.mem_cons_of_mem _ h1)
    simp only [stopsSettleIdle, Bool.and_eq_true]
    cases e with
    | typeText text => exact ⟨rfl, ih _ h0 hes⟩
    | startClick =>
      refine ⟨rfl, ih _ ?_ hes⟩
      rcases step_startClick_cases σ with h1 | ⟨-, -, -, h4⟩
      · rw [h1]; exact h0
      · rw [h4]; exact h0
    | stopClick => exact absurd rfl he
    | scanSettles o =>
      refine ⟨rfl, ih _ ?_ hes⟩
      by_cases hs : σ.scansInFlight = 0
      · simp only [step, hs, if_true]; exact h0
      · simp only [step, hs, if_false]; exact h0
    | stopSettles o =>
      refine ⟨by simp [settlesIdle, h0], ih _ ?_ hes⟩
      simp only [step, h0, if_true]

theorem singleScan_enabled_iff {σ : System} (h : SingleScan σ) :
    (σ.page.startDisabled = false ↔ σ.scansInFlight = 0) ∧ σ.scansInFlight ≤ 1 := by
  obtain ⟨hiff, hle⟩ := h
  refine ⟨⟨fun hd => ?_, fun h0 => ?_⟩, hle⟩
  · have hne : σ.scansInFlight ≠ 1 := fun h1 => by
      rw [hiff.2 h1] at hd; exact absurd hd (by decide)
    omega
  · cases hd : σ.page.startDisabled with
    | false => rfl
    | true => have := hiff.1 hd; omega

/-- C9 as stated fails: after a start click, a stop click (on the reset
button, which the start click has enabled) and the settling of the `/stop`
request, the start control is enabled while the scan request is still in
flight; a second start click then puts a second `/scan` request in
flight. -/
theorem C9_start_enabled_while_scan_in_flight :
    (run plainPage [.typeText "a.com", .startClick]).page.resetDisabled = false ∧
    (run plainPage [.typeText "a.com", .startClick, .stopClick,
      .stopSettles .ok]).page.startDisabled = false ∧
    (run plainPage [.typeText "a.com", .startClick, .stopClick,
      .stopSettles .ok]).scansInFlight = 1 ∧
    (run plainPage [.typeText "a.com", .startClick, .stopClick, .stopSettles .ok,
      .typeText "b.com", .startClick]).scansInFlight = 2 := by
  decide

/-- C9 amended: on a page whose markup leaves the start control enabled, in
every state reachable from the initial state under edits of the input,
start clicks (effective only while the start control is enabled), stop
clicks and completions of outstanding requests, a disabled start control
implies that a scan request is in flight; and in every state reached by a
run in which no outstanding `/stop` request settles while a scan request is
in flight (in particular by every run without a stop click) the start
control is enabled exactly when no scan request is in flight, and at most
one `/scan` request is outstanding. -/
theorem C9_start_disabled_scan_in_flight (html : Controller) (evs : List Event)
    (hstart : html.startDisabled = false) :
    ((run html evs).page.startDisabled = true → 1 ≤ (run html evs).scansInFlight) ∧
    (stopsSettleIdle (initial html) evs = true →
      ((run html evs).page.startDisabled = false ↔ (run html evs).scansInFlight = 0) ∧
        (run html evs).scansInFlight ≤ 1) ∧
    (Event.stopClick ∉ evs →
      ((run html evs).page.startDisabled = false ↔ (run html evs).scansInFlight = 0) ∧
        (run html evs).scansInFlight ≤ 1) := by
  have hA : DisabledImpliesInFlight (initial html) := by
    intro hd
    have : html.startDisabled = true := hd
    rw [hstart] at this
    exact absurd this (by decide)
  have hB : SingleScan (initial html) := by
    refine ⟨?_, Nat.zero_le _⟩
    constructor
    · intro hd
      have : html.startDisabled = true := hd
      rw [hstart] at this
      exact absurd this (by decide)
    · intro h0
      have : (0 : Nat) = 1 := h0
      exact absurd this (by decide)
  refine ⟨foldl_disabledImpliesInFlight evs _ hA, fun hev => ?_, fun hev => ?_⟩
  · exact singleScan_enabled_iff (foldl_singleScan evs _ hev hB)
  · exact singleScan_enabled_iff
      (foldl_singleScan evs _ (stopsSettleIdle_of_no_stopClick evs _ rfl hev) hB)

/-- C9 amended, on the plain page: a scan that ends, a reset whose `/stop`
request settles with no scan in flight, then a second start. -/
theorem C9_start_disabled_scan_in_flight_witness :
    ((run plainPage [.typeText "a.com", .startClick, .scanSettles .notOk, .stopClick,
        .stopSettles .ok, .typeText "b.com", .startClick]).page.startDisabled = false ↔
      (run plainPage [.typeText "a.com", .startClick, .scanSettles .notOk, .stopClick,
        .stopSettles .ok, .typeText "b.com", .startClick]).scansInFlight = 0) ∧
    (run plainPage [.typeText "a.com", .startClick, .scanSettles .notOk, .stopClick,
      .stopSettles .ok, .typeText "b.com", .startClick]).scansInFlight ≤ 1 :=
  (C9_start_disabled_scan_in_flight plainPage
    [.typeText "a.com", .startClick, .scanSettles .notOk, .stopClick, .stopSettles .ok,
      .typeText "b.com", .startClick] rfl).2.1 (by decide)

end PdfScanner
